import Mathlib

/-!
# Banker's Algorithm (`src/main.c`): resource ledger, allocation protocol, safety check

A shallow embedding of the ledger arrays and of the functions `request_resources`,
`release_resources`, `is_safe_state`, `need_lt_work` and `all_true` of `src/main.c`, of its
start-up (`are_valid_args`, `init_available`, `init_maximum`, `init_allocation`,
`init_need`) and of the three blocks of `customer_process` that pick the request, pick the
release and decide on another cycle.

Modelling conventions.

* The four global arrays form one value of type `Ledger`; a function that mutates the
  globals becomes a function returning the new ledger (together with its `int` result).
* A C array of compile-time size `k` is a function on `Fin k`; `a[i] = v` is
  `Function.update a i v`.  A `for (i = 0; i < k; i++)` loop is a left fold over
  `List.finRange k`, a loop with an early `return` is a recursion over that list.
* C `int` is `Int`.  Signed overflow is undefined behaviour in C, so the embedding describes
  the executions in which every intermediate value is representable, where C arithmetic and
  integer arithmetic agree.  The ledgers used as concrete inputs below have single-digit
  entries.
* `customer_num` is a `Fin NUMBER_OF_CUSTOMERS`: an index outside the arrays is undefined
  behaviour in C as well.
* `printf`/`print_arr`/`print_state` and the mutex calls do not touch the ledger and are
  omitted: the bodies are modelled as they run while `banker_mutex` is held.
* The outcomes of `rand()` are a sequence `rand : Nat → Int`, read in the order of the
  calls; `a % b` is the truncated remainder and has no value when `b` is zero.
-/

namespace Banker

/-- Total number of customer processes (`n`). -/
abbrev NUMBER_OF_CUSTOMERS : Nat := 5

/-- Total number of different resources (`m`). -/
abbrev NUMBER_OF_RESOURCES : Nat := 3

/-- A C array `int a[NUMBER_OF_RESOURCES]`. -/
abbrev ResVec := Fin NUMBER_OF_RESOURCES → Int

/-- A C array `int a[NUMBER_OF_CUSTOMERS][NUMBER_OF_RESOURCES]`. -/
abbrev ResMat := Fin NUMBER_OF_CUSTOMERS → Fin NUMBER_OF_RESOURCES → Int

/-- The global banking arrays. -/
structure Ledger where
  available : ResVec
  maximum : ResMat
  allocation : ResMat
  need : ResMat

/-- The loop of `need_lt_work` over the resource indices still to be visited:
`if (need[proc_num][i] > work[i]) return false;`, and `return true` after the loop. -/
def need_lt_work_loop (s : Ledger) (proc_num : Fin NUMBER_OF_CUSTOMERS) (work : ResVec) :
    List (Fin NUMBER_OF_RESOURCES) → Bool
  | [] => true
  | i :: rest =>
    if s.need proc_num i > work i then false else need_lt_work_loop s proc_num work rest

/-- Safety algorithm helper `need_lt_work(proc_num, work)`. -/
def need_lt_work (s : Ledger) (proc_num : Fin NUMBER_OF_CUSTOMERS) (work : ResVec) : Bool :=
  need_lt_work_loop s proc_num work (List.finRange NUMBER_OF_RESOURCES)

/-- The helper `all_true(arr, len)`: `result = result && arr[i]` for `i = 0 .. len-1`,
starting from `true`.  The array is passed together with its length `len`. -/
def all_true {len : Nat} (arr : Fin len → Bool) : Bool :=
  (List.finRange len).foldl (fun result i => result && arr i) true

/-- The first initialisation loop of `is_safe_state`: `work[i] = available[i]`.  The local
array is not initialised in C; the loop writes every entry (`init_work_eq`). -/
def init_work (s : Ledger) : ResVec :=
  (List.finRange NUMBER_OF_RESOURCES).foldl
    (fun work i => Function.update work i (s.available i)) (fun _ => 0)

/-- The second initialisation loop of `is_safe_state`: `finish[i] = false`.  The local
array is not initialised in C; the loop writes every entry (`init_finish_eq`). -/
def init_finish : Fin NUMBER_OF_CUSTOMERS → Bool :=
  (List.finRange NUMBER_OF_CUSTOMERS).foldl
    (fun finish i => Function.update finish i false) (fun _ => false)

/-- The inner loop of `is_safe_state`: `work[j] = work[j] + allocation[i][j]`. -/
def add_allocation (s : Ledger) (i : Fin NUMBER_OF_CUSTOMERS) (work : ResVec) : ResVec :=
  (List.finRange NUMBER_OF_RESOURCES).foldl
    (fun work j => Function.update work j (work j + s.allocation i j)) work

/-- One iteration of the customer loop of `is_safe_state` on the locals `(work, finish)`. -/
def safety_step (s : Ledger) (wf : ResVec × (Fin NUMBER_OF_CUSTOMERS → Bool))
    (i : Fin NUMBER_OF_CUSTOMERS) : ResVec × (Fin NUMBER_OF_CUSTOMERS → Bool) :=
  if (wf.2 i == false) && need_lt_work s i wf.1 then
    (add_allocation s i wf.1, Function.update wf.2 i true)
  else wf

/-- The function `is_safe_state()`, reading the ledger `s`. -/
def is_safe_state (s : Ledger) : Bool :=
  all_true ((List.finRange NUMBER_OF_CUSTOMERS).foldl (safety_step s)
    (init_work s, init_finish)).2

/-- One iteration of the "simulate allocation" loop of `request_resources`. -/
def simulate_step (customer_num : Fin NUMBER_OF_CUSTOMERS) (request : ResVec)
    (s : Ledger) (i : Fin NUMBER_OF_RESOURCES) : Ledger :=
  { available := Function.update s.available i (s.available i - request i)
    maximum := s.maximum
    allocation := Function.update s.allocation customer_num
      (Function.update (s.allocation customer_num) i (s.allocation customer_num i + request i))
    need := Function.update s.need customer_num
      (Function.update (s.need customer_num) i (s.need customer_num i - request i)) }

/-- One iteration of the restoring loop of `request_resources`. -/
def restore_step (customer_num : Fin NUMBER_OF_CUSTOMERS) (request : ResVec)
    (s : Ledger) (i : Fin NUMBER_OF_RESOURCES) : Ledger :=
  { available := Function.update s.available i (s.available i + request i)
    maximum := s.maximum
    allocation := Function.update s.allocation customer_num
      (Function.update (s.allocation customer_num) i (s.allocation customer_num i - request i))
    need := Function.update s.need customer_num
      (Function.update (s.need customer_num) i (s.need customer_num i + request i)) }

/-- The first loop of `request_resources` over the indices still to be visited: `true` when
some `available[i] < request[i]` makes the function return `-1`. -/
def exceeds_available (s : Ledger) (request : ResVec) : List (Fin NUMBER_OF_RESOURCES) → Bool
  | [] => false
  | i :: rest => if s.available i < request i then true else exceeds_available s request rest

/-- The function `request_resources(customer_num, request)`: its result and the ledger it
leaves behind. -/
def request_resources (s : Ledger) (customer_num : Fin NUMBER_OF_CUSTOMERS)
    (request : ResVec) : Int × Ledger :=
  if exceeds_available s request (List.finRange NUMBER_OF_RESOURCES) then (-1, s)
  else
    let s1 := (List.finRange NUMBER_OF_RESOURCES).foldl (simulate_step customer_num request) s
    if !is_safe_state s1 then
      (-1, (List.finRange NUMBER_OF_RESOURCES).foldl (restore_step customer_num request) s1)
    else (0, s1)

/-- One iteration of the loop of `release_resources`. -/
def release_step (customer_num : Fin NUMBER_OF_CUSTOMERS) (request : ResVec)
    (s : Ledger) (i : Fin NUMBER_OF_RESOURCES) : Ledger :=
  { available := Function.update s.available i (s.available i + request i)
    maximum := s.maximum
    allocation := Function.update s.allocation customer_num
      (Function.update (s.allocation customer_num) i (s.allocation customer_num i - request i))
    need := s.need }

/-- The function `release_resources(customer_num, request)`: its result and the ledger it
leaves behind. -/
def release_resources (s : Ledger) (customer_num : Fin NUMBER_OF_CUSTOMERS)
    (request : ResVec) : Int × Ledger :=
  (0, (List.finRange NUMBER_OF_RESOURCES).foldl (release_step customer_num request) s)

/-! ## Specification-side notions -/

/-- The tentative ledger of the specification's step 2: `available -= request`,
`allocation[c] += request`, `need[c] -= request`, everything else as before. -/
def tentative (s : Ledger) (c : Fin NUMBER_OF_CUSTOMERS) (request : ResVec) : Ledger :=
  { available := fun j => s.available j - request j
    maximum := s.maximum
    allocation := fun i j => if i = c then s.allocation i j + request j else s.allocation i j
    need := fun i j => if i = c then s.need i j - request j else s.need i j }

/-- The ledger after a release as the specification states it: `available += release`,
`allocation[c] -= release`, everything else as before. -/
def released (s : Ledger) (c : Fin NUMBER_OF_CUSTOMERS) (release : ResVec) : Ledger :=
  { available := fun j => s.available j + release j
    maximum := s.maximum
    allocation := fun i j => if i = c then s.allocation i j - release j else s.allocation i j
    need := s.need }

/-- Processing the consumers of `order` one after the other from the pool `work`: each one
must have its need row component-wise `≤ work` when its turn comes, and on finishing it
adds its allocation row to `work`. -/
def completes (s : Ledger) : ResVec → List (Fin NUMBER_OF_CUSTOMERS) → Bool
  | _, [] => true
  | work, i :: rest =>
    decide (∀ j, s.need i j ≤ work j) &&
      completes s (fun j => work j + s.allocation i j) rest

/-- A completion order: every consumer exactly once, and processing them in that order
starting from `available` lets each one finish. -/
def IsCompletionOrder (s : Ledger) (order : List (Fin NUMBER_OF_CUSTOMERS)) : Prop :=
  order.Perm (List.finRange NUMBER_OF_CUSTOMERS) ∧ completes s s.available order = true

instance (s : Ledger) (order : List (Fin NUMBER_OF_CUSTOMERS)) :
    Decidable (IsCompletionOrder s order) := by
  unfold IsCompletionOrder; infer_instance

/-- A safe state: some completion order for all consumers exists. -/
def Safe (s : Ledger) : Prop := ∃ order, IsCompletionOrder s order

/-- The quantity `available[j] + Σ_i allocation[i][j]`. -/
def total (s : Ledger) (j : Fin NUMBER_OF_RESOURCES) : Int :=
  s.available j + ∑ i : Fin NUMBER_OF_CUSTOMERS, s.allocation i j

/-- Invariant 2 of the data model: `allocation[i][j] + need[i][j] = maximum[i][j]`. -/
def NeedInvariant (s : Ledger) : Prop :=
  ∀ i j, s.allocation i j + s.need i j = s.maximum i j

/-- Invariant 1 of the data model: every entry of `available`, `allocation` and `need` is
non-negative. -/
def NonNegative (s : Ledger) : Prop :=
  (∀ j, 0 ≤ s.available j) ∧ (∀ i j, 0 ≤ s.allocation i j) ∧ (∀ i j, 0 ≤ s.need i j)

instance (s : Ledger) : Decidable (NeedInvariant s) := by
  unfold NeedInvariant; infer_instance

instance (s : Ledger) : Decidable (NonNegative s) := by
  unfold NonNegative; infer_instance

/-- One call made by a consumer: a request or a release, with the consumer's number and
the vector passed. -/
inductive Transaction where
  | request (customer_num : Fin NUMBER_OF_CUSTOMERS) (request : ResVec)
  | release (customer_num : Fin NUMBER_OF_CUSTOMERS) (release : ResVec)

/-- The ledger left behind by one call. -/
def apply_transaction (s : Ledger) : Transaction → Ledger
  | .request c r => (request_resources s c r).2
  | .release c r => (release_resources s c r).2

/-- The ledger left behind by a finite sequence of calls, executed one after the other. -/
def run (s : Ledger) (ts : List Transaction) : Ledger := ts.foldl apply_transaction s

/-- The ledger loops of the two transactions, seen on a list of indices: a loop body that
rewrites `available[i]`, `allocation[c][i]` and `need[c][i]` by `fa`, `fl`, `fn`. -/
def row_step (fa fl fn : Fin NUMBER_OF_RESOURCES → Int → Int) (c : Fin NUMBER_OF_CUSTOMERS)
    (s : Ledger) (i : Fin NUMBER_OF_RESOURCES) : Ledger :=
  { available := Function.update s.available i (fa i (s.available i))
    maximum := s.maximum
    allocation := Function.update s.allocation c
      (Function.update (s.allocation c) i (fl i (s.allocation c i)))
    need := Function.update s.need c
      (Function.update (s.need c) i (fn i (s.need c i))) }

/-! ## Concrete ledgers -/

/-- The textbook state: `available = [3,3,2]` with the classic allocation and maximum. -/
def textbook : Ledger :=
  { available := ![3, 3, 2]
    maximum := ![![7, 5, 3], ![3, 2, 2], ![9, 0, 2], ![2, 2, 2], ![4, 3, 3]]
    allocation := ![![0, 1, 0], ![2, 0, 0], ![3, 0, 2], ![2, 1, 1], ![0, 0, 2]]
    need := ![![7, 4, 3], ![1, 2, 2], ![6, 0, 0], ![0, 1, 1], ![4, 3, 1]] }

/-- A ledger as `main` sets it up from the arguments `4 1 1` when consumers 0 and 1 both
draw the maximum `[3,0,0]`: nothing is allocated and `need = maximum`. -/
def startup : Ledger :=
  { available := ![4, 1, 1]
    maximum := ![![3, 0, 0], ![3, 0, 0], ![0, 0, 0], ![0, 0, 0], ![0, 0, 0]]
    allocation := ![![0, 0, 0], ![0, 0, 0], ![0, 0, 0], ![0, 0, 0], ![0, 0, 0]]
    need := ![![3, 0, 0], ![3, 0, 0], ![0, 0, 0], ![0, 0, 0], ![0, 0, 0]] }

/-- The arrays as `is_safe_state` reads them when, from `startup`, consumer 1 asks for
`[2,0,0]`: the allocation has been simulated. -/
def startup_pending : Ledger :=
  { available := ![2, 1, 1]
    maximum := ![![3, 0, 0], ![3, 0, 0], ![0, 0, 0], ![0, 0, 0], ![0, 0, 0]]
    allocation := ![![0, 0, 0], ![2, 0, 0], ![0, 0, 0], ![0, 0, 0], ![0, 0, 0]]
    need := ![![3, 0, 0], ![1, 0, 0], ![0, 0, 0], ![0, 0, 0], ![0, 0, 0]] }

/-- The ledger `startup` after consumer 0 has been granted `[2,0,0]`. -/
def holding : Ledger :=
  { available := ![2, 1, 1]
    maximum := ![![3, 0, 0], ![3, 0, 0], ![0, 0, 0], ![0, 0, 0], ![0, 0, 0]]
    allocation := ![![2, 0, 0], ![0, 0, 0], ![0, 0, 0], ![0, 0, 0], ![0, 0, 0]]
    need := ![![1, 0, 0], ![3, 0, 0], ![0, 0, 0], ![0, 0, 0], ![0, 0, 0]] }

/-! ## Start-up and the customer process -/

/-- The C expression `a % b` on `int`: the remainder of the division truncated towards
zero.  A zero divisor is undefined behaviour and gives `none`. -/
def c_mod (a b : Int) : Option Int := if b = 0 then none else some (a.tmod b)

/-- The C library test `isspace` in the "C" locale: space and the characters 9 to 13. -/
def isspace (ch : Char) : Bool := ch.toNat == 32 || (9 ≤ ch.toNat && ch.toNat ≤ 13)

/-- The digits read by `atoi`, most significant first, up to the first other character. -/
def atoi_digits : List Char → Int → Int
  | [], acc => acc
  | ch :: rest, acc =>
    if 48 ≤ ch.toNat && ch.toNat ≤ 57 then atoi_digits rest (10 * acc + ((ch.toNat - 48 : Nat) : Int))
    else acc

/-- The C library function `atoi`, which `src/main.c` calls on its arguments: leading white
space is skipped, then an optional sign and the longest run of decimal digits are read;
the value is `0` when there is no digit. -/
def atoi (str : String) : Int :=
  match str.toList.dropWhile isspace with
  | '-' :: rest => - atoi_digits rest 0
  | '+' :: rest => atoi_digits rest 0
  | rest => atoi_digits rest 0

/-- The loop of `are_valid_args` over the argument positions still to be visited:
`if (atoi(argv[i]) == 0) return 0;`, and `return 1` after the loop. -/
def are_valid_args_loop (argv : List String) : List Nat → Bool
  | [] => true
  | i :: rest => if atoi (argv.getD i "") == 0 then false else are_valid_args_loop argv rest

/-- The function `are_valid_args(argc, argv)`; the loop runs over `i = 1 .. NUMBER_OF_RESOURCES`. -/
def are_valid_args (argc : Int) (argv : List String) : Bool :=
  if argc - 1 != (NUMBER_OF_RESOURCES : Int) then false
  else are_valid_args_loop argv (List.range' 1 NUMBER_OF_RESOURCES)

/-- The function `init_available(argv)`: `available[i] = atoi(argv[i + 1])`. -/
def init_available (argv : List String) (s : Ledger) : Ledger :=
  { available := (List.finRange NUMBER_OF_RESOURCES).foldl
      (fun av i => Function.update av i (atoi (argv.getD (i.val + 1) ""))) s.available
    maximum := s.maximum
    allocation := s.allocation
    need := s.need }

/-- One iteration of the inner loop of `init_maximum`:
`maximum[i][j] = rand() % available[j]`.  The outcomes of `rand()` are the sequence `rand`,
the second component of the state counts the calls made so far. -/
def init_maximum_step (rand : Nat → Int) (i : Fin NUMBER_OF_CUSTOMERS) (st : Ledger × Nat)
    (j : Fin NUMBER_OF_RESOURCES) : Option (Ledger × Nat) :=
  match c_mod (rand st.2) (st.1.available j) with
  | none => none
  | some v =>
    some ({ available := st.1.available
            maximum := Function.update (st.1.maximum) i (Function.update (st.1.maximum i) j v)
            allocation := st.1.allocation
            need := st.1.need },
          st.2 + 1)

/-- The function `init_maximum()`, with the outcomes of `rand()` after the seeding given by
`rand`; `none` when a modulus by zero is taken. -/
def init_maximum (rand : Nat → Int) (s : Ledger) : Option Ledger :=
  ((List.finRange NUMBER_OF_CUSTOMERS).foldlM
    (fun st i => (List.finRange NUMBER_OF_RESOURCES).foldlM (init_maximum_step rand i) st)
    (s, 0)).map Prod.fst

/-- The function `init_allocation()`: `allocation[i][j] = 0`. -/
def init_allocation (s : Ledger) : Ledger :=
  (List.finRange NUMBER_OF_CUSTOMERS).foldl
    (fun s i => (List.finRange NUMBER_OF_RESOURCES).foldl
      (fun s j => { s with
        allocation := Function.update s.allocation i (Function.update (s.allocation i) j 0) })
      s) s

/-- The function `init_need()`: `need[i][j] = maximum[i][j] - allocation[i][j]`. -/
def init_need (s : Ledger) : Ledger :=
  (List.finRange NUMBER_OF_CUSTOMERS).foldl
    (fun s i => (List.finRange NUMBER_OF_RESOURCES).foldl
      (fun s j => { s with
        need := Function.update s.need i
          (Function.update (s.need i) j (s.maximum i j - s.allocation i j)) })
      s) s

/-- The global arrays when the program starts: objects of static storage are zero. -/
def zero_ledger : Ledger :=
  { available := fun _ => 0, maximum := fun _ _ => 0, allocation := fun _ _ => 0,
    need := fun _ _ => 0 }

/-- The function `banker_initalization_pipeline(argv)`, started on the zeroed globals. -/
def banker_initalization_pipeline (rand : Nat → Int) (argv : List String) : Option Ledger :=
  (init_maximum rand (init_available argv zero_ledger)).map
    (fun s => init_need (init_allocation s))

/-- The beginning of `main`, up to the launch of the customer threads: `Except.error 1` is
`return 1`, `Except.ok` carries the ledger left by the initialisation pipeline. -/
def main_startup (rand : Nat → Int) (argc : Int) (argv : List String) :
    Except Int (Option Ledger) :=
  if !are_valid_args argc argv then Except.error 1
  else Except.ok (banker_initalization_pipeline rand argv)

/-- The body shared by the two loops of `customer_process` that pick the amounts to request
(from `row = need[customer_num]`) and to release (from `row = allocation[customer_num]`):
`if (row[i] == 0 || row[i] == 1) v[i] = row[i]; else v[i] = rand() % row[i];`.  The second
component of the state counts the calls of `rand()` made so far. -/
def choose_amount (rand : Nat → Int) (row : ResVec) (st : ResVec × Nat)
    (i : Fin NUMBER_OF_RESOURCES) : Option (ResVec × Nat) :=
  if row i == 0 || row i == 1 then some (Function.update st.1 i (row i), st.2)
  else
    match c_mod (rand st.2) (row i) with
    | none => none
    | some v => some (Function.update st.1 i v, st.2 + 1)

/-- The loop of `customer_process` that fills `request` from `need[customer_num]`, started
after `calls` calls of `rand()`.  The local array is not initialised in C; the loop writes
every entry. -/
def customer_request (rand : Nat → Int) (s : Ledger) (customer_num : Fin NUMBER_OF_CUSTOMERS)
    (calls : Nat) : Option (ResVec × Nat) :=
  (List.finRange NUMBER_OF_RESOURCES).foldlM (choose_amount rand (s.need customer_num))
    (fun _ => 0, calls)

/-- The loop of `customer_process` that fills `release` from `allocation[customer_num]`,
started after `calls` calls of `rand()`.  The local array is not initialised in C; the loop
writes every entry. -/
def customer_release (rand : Nat → Int) (s : Ledger) (customer_num : Fin NUMBER_OF_CUSTOMERS)
    (calls : Nat) : Option (ResVec × Nat) :=
  (List.finRange NUMBER_OF_RESOURCES).foldlM (choose_amount rand (s.allocation customer_num))
    (fun _ => 0, calls)

/-- The end of the body of the `while (run)` loop of `customer_process`: `run = false`, then
`run = true` for every `need[customer_num][i] > 0` and every
`allocation[customer_num][i] > 0`.  The value is the `run` that decides on another cycle. -/
def customer_run (s : Ledger) (customer_num : Fin NUMBER_OF_CUSTOMERS) : Bool :=
  let run := (List.finRange NUMBER_OF_RESOURCES).foldl
    (fun run i => if s.need customer_num i > 0 then true else run) false
  (List.finRange NUMBER_OF_RESOURCES).foldl
    (fun run i => if s.allocation customer_num i > 0 then true else run) run

/-- The start-up condition of the ledger: nothing allocated, `need = maximum`, and every
maximum between `0` and the available amount. -/
def Initialised (s : Ledger) : Prop :=
  (∀ i j, s.allocation i j = 0) ∧ (∀ i j, s.need i j = s.maximum i j) ∧
    ∀ i j, 0 ≤ s.maximum i j ∧ s.maximum i j ≤ s.available j

instance (s : Ledger) : Decidable (Initialised s) := by
  unfold Initialised; infer_instance

/-- The precondition of one call on the ledger it is made on: the vector is non-negative
and at most `need[c]` for a request, at most `allocation[c]` for a release. -/
def precondition (s : Ledger) : Transaction → Prop
  | .request c r => ∀ j, 0 ≤ r j ∧ r j ≤ s.need c j
  | .release c r => ∀ j, 0 ≤ r j ∧ r j ≤ s.allocation c j

instance (s : Ledger) (t : Transaction) : Decidable (precondition s t) := by
  cases t <;> (unfold precondition; infer_instance)

/-- A sequence of calls each of which meets its precondition on the ledger left by the
calls before it. -/
def Admissible : Ledger → List Transaction → Prop
  | _, [] => True
  | s, t :: ts => precondition s t ∧ Admissible (apply_transaction s t) ts

/-- The bound `allocation[i][j] + need[i][j] ≤ maximum[i][j]`. -/
def NeedBound (s : Ledger) : Prop :=
  ∀ i j, s.allocation i j + s.need i j ≤ s.maximum i j

instance (s : Ledger) : Decidable (NeedBound s) := by
  unfold NeedBound; infer_instance

/-! ## Loops as pointwise updates -/

/-- Two ledgers with the same entries are the same ledger. -/
theorem ledger_eq_of_entries (s t : Ledger) (hav : ∀ j, s.available j = t.available j)
    (hmx : ∀ i j, s.maximum i j = t.maximum i j)
    (hal : ∀ i j, s.allocation i j = t.allocation i j)
    (hnd : ∀ i j, s.need i j = t.need i j) : s = t := by
  cases s; cases t
  simp only [Ledger.mk.injEq]
  exact ⟨funext hav, funext fun i => funext (hmx i), funext fun i => funext (hal i),
    funext fun i => funext (hnd i)⟩

/-- A loop `a[i] = g(i, a[i])` over distinct indices changes exactly the visited entries. -/
theorem foldl_update_apply {k : Nat} {α : Type} (g : Fin k → α → α) :
    ∀ (l : List (Fin k)) (f : Fin k → α) (j : Fin k), l.Nodup →
      (l.foldl (fun a i => Function.update a i (g i (a i))) f) j
        = if j ∈ l then g j (f j) else f j := by
  intro l
  induction l with
  | nil => intro f j _; simp
  | cons i rest ih =>
    intro f j hnd
    have hi : i ∉ rest := (List.nodup_cons.mp hnd).1
    rw [List.foldl_cons, ih _ j (List.nodup_cons.mp hnd).2]
    by_cases hj : j ∈ rest
    · have hne : j ≠ i := fun h => hi (h ▸ hj)
      simp [hj, Function.update_noteq hne]
    · by_cases hji : j = i
      · subst hji; simp [hj]
      · simp [hj, hji, Function.update_noteq hji]

/-- The same loop over all indices of the array rewrites every entry. -/
theorem foldl_update_finRange {k : Nat} {α : Type} (g : Fin k → α → α) (f : Fin k → α) :
    (List.finRange k).foldl (fun a i => Function.update a i (g i (a i))) f
      = fun j => g j (f j) := by
  funext j
  rw [foldl_update_apply g _ f j (List.nodup_finRange k)]
  simp

theorem init_work_eq (s : Ledger) : init_work s = s.available := by
  unfold init_work
  exact foldl_update_finRange (fun i _ => s.available i) _

theorem init_finish_eq : init_finish = fun _ => false := by
  unfold init_finish
  exact foldl_update_finRange (fun _ _ => false) _

theorem add_allocation_eq (s : Ledger) (i : Fin NUMBER_OF_CUSTOMERS) (work : ResVec) :
    add_allocation s i work = fun j => work j + s.allocation i j := by
  unfold add_allocation
  exact foldl_update_finRange (fun j w => w + s.allocation i j) work

theorem need_lt_work_loop_iff (s : Ledger) (p : Fin NUMBER_OF_CUSTOMERS) (work : ResVec) :
    ∀ l : List (Fin NUMBER_OF_RESOURCES),
      need_lt_work_loop s p work l = true ↔ ∀ j ∈ l, s.need p j ≤ work j := by
  intro l
  induction l with
  | nil => simp [need_lt_work_loop]
  | cons i rest ih =>
    unfold need_lt_work_loop
    by_cases h : s.need p i > work i
    · simp only [h, if_true, List.mem_cons]
      constructor
      · intro hf; cases hf
      · intro hall; exact absurd (hall i (Or.inl rfl)) (not_le.mpr h)
    · simp only [h, if_false, ih, List.mem_cons]
      constructor
      · intro hall j hj
        rcases hj with rfl | hj
        · exact not_lt.mp h
        · exact hall j hj
      · intro hall j hj; exact hall j (Or.inr hj)

theorem need_lt_work_iff (s : Ledger) (p : Fin NUMBER_OF_CUSTOMERS) (work : ResVec) :
    need_lt_work s p work = true ↔ ∀ j, s.need p j ≤ work j := by
  unfold need_lt_work
  rw [need_lt_work_loop_iff]
  simp

theorem foldl_and_eq {len : Nat} (arr : Fin len → Bool) :
    ∀ (l : List (Fin len)) (b : Bool),
      l.foldl (fun result i => result && arr i) b = (b && l.all arr) := by
  intro l
  induction l with
  | nil => intro b; simp
  | cons i rest ih => intro b; simp [List.foldl_cons, ih, Bool.and_assoc]

theorem all_true_iff {len : Nat} (arr : Fin len → Bool) :
    all_true arr = true ↔ ∀ i, arr i = true := by
  unfold all_true
  rw [foldl_and_eq]
  simp

theorem exceeds_available_iff (s : Ledger) (r : ResVec) :
    ∀ l : List (Fin NUMBER_OF_RESOURCES),
      exceeds_available s r l = true ↔ ∃ j ∈ l, s.available j < r j := by
  intro l
  induction l with
  | nil => simp [exceeds_available]
  | cons i rest ih =>
    unfold exceeds_available
    by_cases h : s.available i < r i
    · simp [h]
    · simp [h, ih]


theorem foldl_row_step (fa fl fn : Fin NUMBER_OF_RESOURCES → Int → Int)
    (c : Fin NUMBER_OF_CUSTOMERS) :
    ∀ (l : List (Fin NUMBER_OF_RESOURCES)) (s : Ledger),
      l.foldl (row_step fa fl fn c) s =
        { available := l.foldl (fun a i => Function.update a i (fa i (a i))) s.available
          maximum := s.maximum
          allocation := Function.update s.allocation c
            (l.foldl (fun a i => Function.update a i (fl i (a i))) (s.allocation c))
          need := Function.update s.need c
            (l.foldl (fun a i => Function.update a i (fn i (a i))) (s.need c)) } := by
  intro l
  induction l with
  | nil => intro s; simp
  | cons i rest ih =>
    intro s
    rw [List.foldl_cons, ih]
    simp [row_step]

theorem foldl_row_step_finRange (fa fl fn : Fin NUMBER_OF_RESOURCES → Int → Int)
    (c : Fin NUMBER_OF_CUSTOMERS) (s : Ledger) :
    (List.finRange NUMBER_OF_RESOURCES).foldl (row_step fa fl fn c) s =
      { available := fun j => fa j (s.available j)
        maximum := s.maximum
        allocation := fun i j => if i = c then fl j (s.allocation i j) else s.allocation i j
        need := fun i j => if i = c then fn j (s.need i j) else s.need i j } := by
  rw [foldl_row_step, foldl_update_finRange, foldl_update_finRange, foldl_update_finRange]
  congr 1
  · funext i j
    by_cases h : i = c
    · subst h; simp
    · simp [h, Function.update_noteq h]
  · funext i j
    by_cases h : i = c
    · subst h; simp
    · simp [h, Function.update_noteq h]

theorem simulate_eq (s : Ledger) (c : Fin NUMBER_OF_CUSTOMERS) (r : ResVec) :
    (List.finRange NUMBER_OF_RESOURCES).foldl (simulate_step c r) s = tentative s c r := by
  have h : simulate_step c r
      = row_step (fun i x => x - r i) (fun i x => x + r i) (fun i x => x - r i) c := rfl
  rw [h, foldl_row_step_finRange]
  rfl

theorem restore_eq (s : Ledger) (c : Fin NUMBER_OF_CUSTOMERS) (r : ResVec) :
    (List.finRange NUMBER_OF_RESOURCES).foldl (restore_step c r) (tentative s c r) = s := by
  have h : restore_step c r
      = row_step (fun i x => x + r i) (fun i x => x - r i) (fun i x => x + r i) c := rfl
  rw [h, foldl_row_step_finRange]
  cases s with
  | mk av mx al nd =>
    simp only [tentative]
    congr 1
    · funext j; simp
    · funext i j; by_cases hc : i = c <;> simp [hc]
    · funext i j; by_cases hc : i = c <;> simp [hc]

theorem release_eq (s : Ledger) (c : Fin NUMBER_OF_CUSTOMERS) (r : ResVec) :
    (List.finRange NUMBER_OF_RESOURCES).foldl (release_step c r) s = released s c r := by
  have h : ∀ (l : List (Fin NUMBER_OF_RESOURCES)) (t : Ledger),
      l.foldl (release_step c r) t =
        { l.foldl (row_step (fun i x => x + r i) (fun i x => x - r i) (fun _ x => x) c) t with
          need := t.need } := by
    intro l
    induction l with
    | nil => intro t; rfl
    | cons i rest ih =>
      intro t
      rw [List.foldl_cons, List.foldl_cons, ih, foldl_row_step, foldl_row_step]
      rfl
  rw [h, foldl_row_step_finRange]
  rfl


/-! ## The safety scan -/

theorem safety_step_of_fits (s : Ledger) (w : ResVec) (f : Fin NUMBER_OF_CUSTOMERS → Bool)
    (i : Fin NUMBER_OF_CUSTOMERS) (hf : f i = false) (hfit : ∀ j, s.need i j ≤ w j) :
    safety_step s (w, f) i = (fun j => w j + s.allocation i j, Function.update f i true) := by
  have h : need_lt_work s i w = true := (need_lt_work_iff s i w).mpr hfit
  simp [safety_step, hf, h, add_allocation_eq]

theorem safety_step_of_not_fits (s : Ledger) (w : ResVec)
    (f : Fin NUMBER_OF_CUSTOMERS → Bool) (i : Fin NUMBER_OF_CUSTOMERS)
    (hfit : ¬ ∀ j, s.need i j ≤ w j) : safety_step s (w, f) i = (w, f) := by
  have h : need_lt_work s i w = false := by
    rw [← Bool.not_eq_true, need_lt_work_iff]; exact hfit
  simp [safety_step, h]

theorem completes_cons (s : Ledger) (w : ResVec) (i : Fin NUMBER_OF_CUSTOMERS)
    (rest : List (Fin NUMBER_OF_CUSTOMERS)) :
    completes s w (i :: rest)
      = (decide (∀ j, s.need i j ≤ w j) && completes s (fun j => w j + s.allocation i j) rest) :=
  rfl

/-- A customer the scan does not visit keeps its `finish` flag. -/
theorem finish_of_not_mem (s : Ledger) :
    ∀ (l : List (Fin NUMBER_OF_CUSTOMERS)) (wf : ResVec × (Fin NUMBER_OF_CUSTOMERS → Bool))
      (k : Fin NUMBER_OF_CUSTOMERS), k ∉ l → (l.foldl (safety_step s) wf).2 k = wf.2 k := by
  intro l
  induction l with
  | nil => intro wf k _; rfl
  | cons i rest ih =>
    intro wf k hk
    have hki : k ≠ i := fun h => hk (h ▸ List.mem_cons_self _ _)
    have hkr : k ∉ rest := fun h => hk (List.mem_cons_of_mem _ h)
    rw [List.foldl_cons, ih _ k hkr]
    unfold safety_step
    split
    · exact Function.update_noteq hki _ _
    · rfl

/-- The scan over distinct, unfinished customers finishes all of them exactly when they
complete in the order visited. -/
theorem scan_all_finished_iff (s : Ledger) :
    ∀ (l : List (Fin NUMBER_OF_CUSTOMERS)) (w : ResVec) (f : Fin NUMBER_OF_CUSTOMERS → Bool),
      l.Nodup → (∀ i ∈ l, f i = false) →
      ((∀ i ∈ l, (l.foldl (safety_step s) (w, f)).2 i = true) ↔ completes s w l = true) := by
  intro l
  induction l with
  | nil => intro w f _ _; simp [completes]
  | cons i rest ih =>
    intro w f hnd hf
    have hi : i ∉ rest := (List.nodup_cons.mp hnd).1
    have hrest : rest.Nodup := (List.nodup_cons.mp hnd).2
    have hfi : f i = false := hf i (List.mem_cons_self _ _)
    rw [List.foldl_cons]
    by_cases hfit : ∀ j, s.need i j ≤ w j
    · rw [safety_step_of_fits s w f i hfi hfit]
      have hf2 : ∀ k ∈ rest, Function.update f i true k = false := by
        intro k hk
        have hki : k ≠ i := fun h => hi (h ▸ hk)
        rw [Function.update_noteq hki]
        exact hf k (List.mem_cons_of_mem _ hk)
      have hih := ih (fun j => w j + s.allocation i j) (Function.update f i true) hrest hf2
      have hfin : (rest.foldl (safety_step s)
          (fun j => w j + s.allocation i j, Function.update f i true)).2 i = true := by
        rw [finish_of_not_mem s rest _ i hi]; simp
      have hd : decide (∀ j, s.need i j ≤ w j) = true := decide_eq_true hfit
      rw [completes_cons, hd, Bool.true_and, ← hih]
      simp only [List.mem_cons, forall_eq_or_imp]
      exact ⟨fun h => h.2, fun h => ⟨hfin, h⟩⟩
    · rw [safety_step_of_not_fits s w f i hfit]
      have hfin : (rest.foldl (safety_step s) (w, f)).2 i = false := by
        rw [finish_of_not_mem s rest _ i hi]; exact hfi
      have hd : decide (∀ j, s.need i j ≤ w j) = false := decide_eq_false hfit
      rw [completes_cons, hd, Bool.false_and]
      simp only [List.mem_cons, forall_eq_or_imp, hfin]
      simp

/-- The single pass of `is_safe_state` accepts exactly the ledgers in which the customers
complete in index order. -/
theorem is_safe_state_iff_index_order (s : Ledger) :
    is_safe_state s = true ↔
      completes s s.available (List.finRange NUMBER_OF_CUSTOMERS) = true := by
  unfold is_safe_state
  rw [all_true_iff, init_work_eq, init_finish_eq,
    ← scan_all_finished_iff s _ s.available (fun _ => false)
      (List.nodup_finRange _) (fun _ _ => rfl)]
  simp

/-- Whenever `is_safe_state` answers `true`, a completion order exists. -/
theorem safe_of_is_safe_state (s : Ledger) (h : is_safe_state s = true) : Safe s :=
  ⟨List.finRange NUMBER_OF_CUSTOMERS, List.Perm.refl _, (is_safe_state_iff_index_order s).mp h⟩


/-! ## The two transactions in closed form -/

theorem request_resources_eq (s : Ledger) (c : Fin NUMBER_OF_CUSTOMERS) (r : ResVec) :
    request_resources s c r =
      if ∃ j, s.available j < r j then (-1, s)
      else if is_safe_state (tentative s c r) = true then (0, tentative s c r)
      else (-1, s) := by
  unfold request_resources
  by_cases hex : ∃ j, s.available j < r j
  · have h : exceeds_available s r (List.finRange NUMBER_OF_RESOURCES) = true := by
      rw [exceeds_available_iff]
      obtain ⟨j, hj⟩ := hex
      exact ⟨j, List.mem_finRange j, hj⟩
    simp [h, hex]
  · have h : exceeds_available s r (List.finRange NUMBER_OF_RESOURCES) = false := by
      rw [← Bool.not_eq_true, exceeds_available_iff]
      rintro ⟨j, _, hj⟩
      exact hex ⟨j, hj⟩
    simp only [h, hex, if_false, simulate_eq, Bool.false_eq_true]
    by_cases hsafe : is_safe_state (tentative s c r) = true
    · simp [hsafe]
    · simp [hsafe, restore_eq]

theorem release_resources_eq (s : Ledger) (c : Fin NUMBER_OF_CUSTOMERS) (r : ResVec) :
    release_resources s c r = (0, released s c r) := by
  unfold release_resources
  rw [release_eq]

theorem request_resources_cases (s : Ledger) (c : Fin NUMBER_OF_CUSTOMERS) (r : ResVec) :
    (request_resources s c r = (-1, s) ∧
        ((∃ j, s.available j < r j) ∨ is_safe_state (tentative s c r) = false)) ∨
      (request_resources s c r = (0, tentative s c r) ∧
        (∀ j, r j ≤ s.available j) ∧ is_safe_state (tentative s c r) = true) := by
  rw [request_resources_eq]
  by_cases hex : ∃ j, s.available j < r j
  · left; simp [hex]
  · by_cases hsafe : is_safe_state (tentative s c r) = true
    · right
      refine ⟨by simp [hex, hsafe], ?_, hsafe⟩
      intro j
      exact not_lt.mp (fun h => hex ⟨j, h⟩)
    · left
      refine ⟨by simp [hex, hsafe], Or.inr ?_⟩
      simpa using hsafe

theorem sum_ite_add (c : Fin NUMBER_OF_CUSTOMERS) (a : Fin NUMBER_OF_CUSTOMERS → Int)
    (x : Int) : (∑ i, if i = c then a i + x else a i) = (∑ i, a i) + x := by
  have h : ∀ i, (if i = c then a i + x else a i) = a i + (if i = c then x else 0) := by
    intro i; by_cases hc : i = c <;> simp [hc]
  simp only [h, Finset.sum_add_distrib, Finset.sum_ite_eq', Finset.mem_univ, if_true]

theorem total_tentative (s : Ledger) (c : Fin NUMBER_OF_CUSTOMERS) (r : ResVec)
    (j : Fin NUMBER_OF_RESOURCES) : total (tentative s c r) j = total s j := by
  simp only [total, tentative]
  rw [sum_ite_add c (fun i => s.allocation i j) (r j)]
  ring

theorem total_released (s : Ledger) (c : Fin NUMBER_OF_CUSTOMERS) (r : ResVec)
    (j : Fin NUMBER_OF_RESOURCES) : total (released s c r) j = total s j := by
  simp only [total, released]
  have h := sum_ite_add c (fun i => s.allocation i j) (- r j)
  simp only [← sub_eq_add_neg] at h
  rw [h]
  ring

/-- No consumer can even start when none has its need row below `available`. -/
theorem not_safe_of_none_fits (s : Ledger)
    (h : ∀ i, ¬ ∀ j, s.need i j ≤ s.available j) : ¬ Safe s := by
  rintro ⟨order, hperm, hcomp⟩
  cases order with
  | nil =>
    have := hperm.length_eq
    simp at this
  | cons i rest =>
    rw [completes_cons] at hcomp
    have hd : decide (∀ j, s.need i j ≤ s.available j) = false := decide_eq_false (h i)
    rw [hd] at hcomp
    simp at hcomp





/-! ## The claims -/

/-- C1 (fails on the code): `is_safe_state` does not decide the existence of a completion
order.  On the arrays it reads when consumer 1 asks for `[2,0,0]` right after start-up it
answers `false`, although the order 1, 0, 2, 3, 4 lets every consumer finish. -/
theorem is_safe_state_rejects_completable :
    tentative startup 1 ![2, 0, 0] = startup_pending ∧
      is_safe_state startup_pending = false ∧
      IsCompletionOrder startup_pending [1, 0, 2, 3, 4] ∧
      ¬ (is_safe_state startup_pending = true ↔ Safe startup_pending) := by
  refine ⟨?_, by decide, by decide, ?_⟩
  · exact ledger_eq_of_entries _ _ (by decide) (by decide) (by decide) (by decide)
  · intro h
    have hsafe : Safe startup_pending := ⟨[1, 0, 2, 3, 4], by decide⟩
    have hf : is_safe_state startup_pending = false := by decide
    rw [h.mpr hsafe] at hf
    cases hf

/-- C2 (fails on the code): in the textbook state the request `[1,0,2]` by consumer 1 is
within `available` and within `need[1]`, and the state after the allocation has the
completion order 1, 3, 4, 0, 2, yet `request_resources` returns `-1`.  The same happens
right after start-up (`startup`) to the request `[2,0,0]` of consumer 1, whose
post-allocation state has the completion order 1, 0, 2, 3, 4. -/
theorem textbook_safe_request_denied :
    ((∀ j, (![1, 0, 2] : ResVec) j ≤ textbook.available j) ∧
      (∀ j, (![1, 0, 2] : ResVec) j ≤ textbook.need 1 j) ∧
      NeedInvariant textbook ∧
      IsCompletionOrder (tentative textbook 1 ![1, 0, 2]) [1, 3, 4, 0, 2] ∧
      (request_resources textbook 1 ![1, 0, 2]).1 = -1) ∧
    ((∀ j, (![2, 0, 0] : ResVec) j ≤ startup.available j) ∧
      (∀ j, (![2, 0, 0] : ResVec) j ≤ startup.need 1 j) ∧
      IsCompletionOrder (tentative startup 1 ![2, 0, 0]) [1, 0, 2, 3, 4] ∧
      (request_resources startup 1 ![2, 0, 0]).1 = -1) := by
  decide

/-- C3: a request whose post-allocation state admits no completion order is denied:
`request_resources` returns `-1` and the ledger it leaves behind is the ledger from before
the call, so the simulated allocation is not kept; in particular a ledger that was safe is
still safe and is not the unsafe post-allocation state. -/
theorem no_order_request_denied (s : Ledger) (c : Fin NUMBER_OF_CUSTOMERS) (request : ResVec)
    (hnone : ¬ Safe (tentative s c request)) :
    (request_resources s c request).1 = -1 ∧
      (request_resources s c request).2 = s ∧
      (Safe s → Safe (request_resources s c request).2 ∧
        (request_resources s c request).2 ≠ tentative s c request) := by
  have hret : request_resources s c request = (-1, s) := by
    rcases request_resources_cases s c request with h | h
    · exact h.1
    · exact absurd (safe_of_is_safe_state _ h.2.2) hnone
  rw [hret]
  refine ⟨rfl, rfl, fun hs => ⟨hs, ?_⟩⟩
  intro heq
  apply hnone
  have heq2 : s = tentative s c request := heq
  rw [← heq2]
  exact hs

/-- C3 at the textbook state: the request `[3,3,2]` by consumer 0 leaves `work = [0,0,0]`,
no consumer can finish, and the request is denied with the ledger unchanged. -/
theorem no_order_request_denied_textbook :
    ¬ Safe (tentative textbook 0 ![3, 3, 2]) ∧
      (request_resources textbook 0 ![3, 3, 2]).1 = -1 ∧
      (request_resources textbook 0 ![3, 3, 2]).2 = textbook :=
  have h : ¬ Safe (tentative textbook 0 ![3, 3, 2]) := not_safe_of_none_fits _ (by decide)
  ⟨h, (no_order_request_denied textbook 0 ![3, 3, 2] h).1,
    (no_order_request_denied textbook 0 ![3, 3, 2] h).2.1⟩

/-- C4: `request_resources` returns `-1` exactly when some `request[j] > available[j]` or
`is_safe_state` is false on the tentative state (`available -= request`,
`allocation[c] += request`, `need[c] -= request`); in every other case it returns `0`. -/
theorem request_denied_iff (s : Ledger) (c : Fin NUMBER_OF_CUSTOMERS) (request : ResVec) :
    ((request_resources s c request).1 = -1 ↔
        ((∃ j, request j > s.available j) ∨ is_safe_state (tentative s c request) = false)) ∧
      ((request_resources s c request).1 = 0 ↔
        ¬ ((∃ j, request j > s.available j) ∨
          is_safe_state (tentative s c request) = false)) := by
  rcases request_resources_cases s c request with h | h
  · rw [h.1]
    refine ⟨⟨fun _ => h.2, fun _ => rfl⟩, ⟨fun h0 => ?_, fun hn => absurd h.2 hn⟩⟩
    exact absurd (show (-1 : Int) = 0 from h0) (by decide)
  · rw [h.1]
    have hn : ¬ ((∃ j, request j > s.available j) ∨
        is_safe_state (tentative s c request) = false) := by
      rintro (⟨j, hj⟩ | hf)
      · exact absurd (h.2.1 j) (not_le.mpr hj)
      · rw [h.2.2] at hf; cases hf
    refine ⟨⟨fun h0 => ?_, fun hd => absurd hd hn⟩, ⟨fun _ => hn, fun _ => rfl⟩⟩
    exact absurd (show (0 : Int) = -1 from h0) (by decide)

/-- C5: whenever `request_resources` returns `-1`, by the availability check or after an
unsafe verdict, the ledger (`available`, `allocation`, `need`, `maximum`) after the call is
the ledger from before the call. -/
theorem denied_request_restores_ledger (s : Ledger) (c : Fin NUMBER_OF_CUSTOMERS)
    (request : ResVec) (hdenied : (request_resources s c request).1 = -1) :
    (request_resources s c request).2 = s := by
  rcases request_resources_cases s c request with h | h
  · rw [h.1]
  · rw [h.1] at hdenied
    exact absurd (show (0 : Int) = -1 from hdenied) (by decide)

/-- C5 at start-up: the request `[2,0,0]` by consumer 1 passes the availability check, is
rolled back after the verdict of `is_safe_state`, and the ledger is as before. -/
theorem denied_request_restores_ledger_startup :
    (∀ j, (![2, 0, 0] : ResVec) j ≤ startup.available j) ∧
      (request_resources startup 1 ![2, 0, 0]).1 = -1 ∧
      (request_resources startup 1 ![2, 0, 0]).2 = startup :=
  ⟨by decide, by decide, denied_request_restores_ledger startup 1 ![2, 0, 0] (by decide)⟩


/-- C6: whenever `request_resources` returns `0` the ledger after the call has
`available - request`, row `c` of `allocation` raised and row `c` of `need` lowered by
`request`, `maximum` and the rows of every other consumer as before, and `is_safe_state`
is true on it. -/
theorem granted_request_commits (s : Ledger) (c : Fin NUMBER_OF_CUSTOMERS)
    (request : ResVec) (hgranted : (request_resources s c request).1 = 0) :
    (∀ j, (request_resources s c request).2.available j = s.available j - request j) ∧
      (∀ j, (request_resources s c request).2.allocation c j
        = s.allocation c j + request j) ∧
      (∀ j, (request_resources s c request).2.need c j = s.need c j - request j) ∧
      (request_resources s c request).2.maximum = s.maximum ∧
      (∀ i, i ≠ c → (request_resources s c request).2.allocation i = s.allocation i ∧
        (request_resources s c request).2.need i = s.need i) ∧
      is_safe_state (request_resources s c request).2 = true := by
  rcases request_resources_cases s c request with h | h
  · rw [h.1] at hgranted
    exact absurd (show (-1 : Int) = 0 from hgranted) (by decide)
  · rw [h.1]
    refine ⟨fun j => rfl, fun j => by simp [tentative], fun j => by simp [tentative], rfl,
      fun i hi => ⟨?_, ?_⟩, h.2.2⟩
    · funext j; simp [tentative, hi]
    · funext j; simp [tentative, hi]

/-- C6 at start-up: the request `[2,0,0]` by consumer 0 is granted and committed; the
ledger it leaves is `holding`. -/
theorem granted_request_commits_startup :
    (request_resources startup 0 ![2, 0, 0]).1 = 0 ∧
      (∀ j, (request_resources startup 0 ![2, 0, 0]).2.available j
        = startup.available j - (![2, 0, 0] : ResVec) j) ∧
      is_safe_state (request_resources startup 0 ![2, 0, 0]).2 = true ∧
      (request_resources startup 0 ![2, 0, 0]).2 = holding :=
  ⟨by decide, (granted_request_commits startup 0 ![2, 0, 0] (by decide)).1,
    (granted_request_commits startup 0 ![2, 0, 0] (by decide)).2.2.2.2.2,
    ledger_eq_of_entries _ _ (by decide) (by decide) (by decide) (by decide)⟩

/-- C7: `release_resources` returns `0` on every ledger, consumer and release vector, and
leaves `available + release`, row `c` of `allocation` lowered by `release`, and `maximum`,
`need` and the allocation rows of every other consumer as before; this holds whatever
`is_safe_state` would answer, which the function never asks. -/
theorem release_always_succeeds (s : Ledger) (c : Fin NUMBER_OF_CUSTOMERS)
    (release : ResVec) :
    (release_resources s c release).1 = 0 ∧
      (∀ j, (release_resources s c release).2.available j = s.available j + release j) ∧
      (∀ j, (release_resources s c release).2.allocation c j
        = s.allocation c j - release j) ∧
      (release_resources s c release).2.maximum = s.maximum ∧
      (∀ i, i ≠ c → (release_resources s c release).2.allocation i = s.allocation i) ∧
      (release_resources s c release).2.need = s.need := by
  rw [release_resources_eq]
  refine ⟨rfl, fun j => rfl, fun j => by simp [released], rfl, fun i hi => ?_, rfl⟩
  funext j; simp [released, hi]

/-- C8 (fails on the code): a release breaks `allocation + need = maximum`.  The ledger
`holding` satisfies it; after consumer 0 releases `[1,0,0]` it no longer does. -/
theorem release_breaks_need_invariant :
    NeedInvariant holding ∧ (∀ j, (![1, 0, 0] : ResVec) j ≤ holding.allocation 0 j) ∧
      ¬ NeedInvariant (release_resources holding 0 ![1, 0, 0]).2 := by
  decide

/-- C8 as the code has it: if `allocation + need = maximum` holds before the call, it holds
after every call of `request_resources` (granted or denied); after `release_resources` the
sum `allocation[i][j] + need[i][j]` is `maximum[i][j]` for every other consumer and
`maximum[c][j] - release[j]` for the releasing consumer `c`. -/
theorem need_invariant_request_and_release (s : Ledger) (c : Fin NUMBER_OF_CUSTOMERS)
    (v : ResVec) (hinv : NeedInvariant s) :
    NeedInvariant (request_resources s c v).2 ∧
      ∀ i j, (release_resources s c v).2.allocation i j + (release_resources s c v).2.need i j
        = s.maximum i j - (if i = c then v j else 0) := by
  constructor
  · rcases request_resources_cases s c v with h | h
    · rw [h.1]; exact hinv
    · rw [h.1]
      intro i j
      have hij := hinv i j
      by_cases hi : i = c
      · simp only [tentative, hi, if_true]
        rw [hi] at hij
        omega
      · simp only [tentative, hi, if_false]
        exact hij
  · rw [release_resources_eq]
    intro i j
    have hij := hinv i j
    by_cases hi : i = c
    · simp only [released, hi, if_true]
      rw [hi] at hij
      omega
    · simp only [released, hi, if_false]
      omega

/-- C8 as the code has it, at the ledger `holding` and the vector `[1,0,0]` of consumer 0. -/
theorem need_invariant_request_and_release_holding :
    NeedInvariant holding ∧ NeedInvariant (request_resources holding 0 ![1, 0, 0]).2 ∧
      (release_resources holding 0 ![1, 0, 0]).2.allocation 0 0
        + (release_resources holding 0 ![1, 0, 0]).2.need 0 0 = holding.maximum 0 0 - 1 :=
  ⟨by decide, (need_invariant_request_and_release holding 0 ![1, 0, 0] (by decide)).1,
    (need_invariant_request_and_release holding 0 ![1, 0, 0] (by decide)).2 0 0⟩

theorem total_apply_transaction (s : Ledger) (t : Transaction) (j : Fin NUMBER_OF_RESOURCES) :
    total (apply_transaction s t) j = total s j := by
  cases t with
  | request c r =>
    simp only [apply_transaction]
    rcases request_resources_cases s c r with h | h
    · rw [h.1]
    · rw [h.1]; exact total_tentative s c r j
  | release c r =>
    simp only [apply_transaction, release_resources_eq]
    exact total_released s c r j

/-- C9: for every resource type `j` the quantity `available[j] + Σ_i allocation[i][j]` is
the same after a call of `request_resources` (granted or denied) or `release_resources` as
before it, hence the same after any finite sequence of calls; when the sequence starts from
an all-zero allocation it is the start-up value of `available[j]`. -/
theorem total_conserved (s : Ledger) (c : Fin NUMBER_OF_CUSTOMERS) (v : ResVec)
    (ts : List Transaction) (j : Fin NUMBER_OF_RESOURCES) :
    total (request_resources s c v).2 j = total s j ∧
      total (release_resources s c v).2 j = total s j ∧
      total (run s ts) j = total s j ∧
      ((∀ i, s.allocation i j = 0) → total (run s ts) j = s.available j) := by
  have hrun : ∀ (l : List Transaction) (t : Ledger), total (run t l) j = total t j := by
    intro l
    induction l with
    | nil => intro t; rfl
    | cons a rest ih =>
      intro t
      have hstep : run t (a :: rest) = run (apply_transaction t a) rest := rfl
      rw [hstep, ih, total_apply_transaction]
  refine ⟨total_apply_transaction s (.request c v) j,
    total_apply_transaction s (.release c v) j, hrun ts s, fun hzero => ?_⟩
  rw [hrun ts s]
  simp [total, hzero]

/-- C10: if every entry of `available`, `allocation` and `need` is non-negative, then so is
every entry after `request_resources` called with `0 ≤ request[j] ≤ need[c][j]` and after
`release_resources` called with `0 ≤ release[j] ≤ allocation[c][j]`. -/
theorem nonnegative_preserved (s : Ledger) (c : Fin NUMBER_OF_CUSTOMERS)
    (request release : ResVec) (hs : NonNegative s)
    (hrequest : ∀ j, 0 ≤ request j ∧ request j ≤ s.need c j)
    (hrelease : ∀ j, 0 ≤ release j ∧ release j ≤ s.allocation c j) :
    NonNegative (request_resources s c request).2 ∧
      NonNegative (release_resources s c release).2 := by
  obtain ⟨hav, hal, hnd⟩ := hs
  constructor
  · rcases request_resources_cases s c request with h | h
    · rw [h.1]; exact ⟨hav, hal, hnd⟩
    · rw [h.1]
      refine ⟨fun j => ?_, fun i j => ?_, fun i j => ?_⟩
      · have := h.2.1 j
        simp only [tentative]; omega
      · have h1 := hal i j
        have h2 := (hrequest j).1
        by_cases hi : i = c
        · simp only [tentative, hi, if_true]; rw [hi] at h1; omega
        · simp only [tentative, hi, if_false]; exact h1
      · have h1 := hnd i j
        have h2 := (hrequest j).2
        by_cases hi : i = c
        · simp only [tentative, hi, if_true]; omega
        · simp only [tentative, hi, if_false]; exact h1
  · rw [release_resources_eq]
    refine ⟨fun j => ?_, fun i j => ?_, fun i j => hnd i j⟩
    · have h1 := hav j
      have h2 := (hrelease j).1
      simp only [released]; omega
    · have h1 := hal i j
      have h2 := (hrelease j).2
      by_cases hi : i = c
      · simp only [released, hi, if_true]; omega
      · simp only [released, hi, if_false]; exact h1

/-- C10 at the ledger `holding`: consumer 0 requests `[1,0,0]` or releases `[1,0,0]`. -/
theorem nonnegative_preserved_holding :
    NonNegative holding ∧
      NonNegative (request_resources holding 0 ![1, 0, 0]).2 ∧
      NonNegative (release_resources holding 0 ![1, 0, 0]).2 :=
  ⟨by decide, nonnegative_preserved holding 0 ![1, 0, 0] ![1, 0, 0] (by decide) (by decide)
    (by decide)⟩


/-! ## Releases and the index-order scan -/

/-- Completion in a given order survives a release with a non-negative vector: before the
releasing consumer `c` has its turn the pool is larger by the released amounts, afterwards
it is the same. -/
theorem completes_released (s : Ledger) (c : Fin NUMBER_OF_CUSTOMERS) (r : ResVec)
    (hr : ∀ j, 0 ≤ r j) :
    ∀ (l : List (Fin NUMBER_OF_CUSTOMERS)) (w w2 : ResVec), l.Nodup →
      (∀ j, w j + (if c ∈ l then r j else 0) ≤ w2 j) →
      completes s w l = true → completes (released s c r) w2 l = true := by
  intro l
  induction l with
  | nil => intro w w2 _ _ _; rfl
  | cons i rest ih =>
    intro w w2 hnd hw hc
    have hi : i ∉ rest := (List.nodup_cons.mp hnd).1
    rw [completes_cons, Bool.and_eq_true, decide_eq_true_eq] at hc
    rw [completes_cons, Bool.and_eq_true, decide_eq_true_eq]
    have hw0 : ∀ j, w j ≤ w2 j := by
      intro j
      have h1 := hw j
      have h2 := hr j
      by_cases hm : c ∈ i :: rest
      · rw [if_pos hm] at h1; omega
      · rw [if_neg hm] at h1; omega
    refine ⟨fun j => le_trans (hc.1 j) (hw0 j), ?_⟩
    apply ih (fun j => w j + s.allocation i j) _ (List.nodup_cons.mp hnd).2 _ hc.2
    intro j
    have h1 := hw j
    by_cases hic : i = c
    · have hcr : c ∉ rest := hic ▸ hi
      have hm : c ∈ i :: rest := hic ▸ List.mem_cons_self _ _
      rw [if_pos hm] at h1
      rw [if_neg hcr]
      simp only [released, hic, if_true]
      omega
    · have hmem : (c ∈ i :: rest) ↔ c ∈ rest := by
        rw [List.mem_cons]
        exact ⟨fun h => h.resolve_left (fun hci => hic hci.symm), Or.inr⟩
      simp only [released, hic, if_false]
      by_cases hm : c ∈ rest
      · rw [if_pos (hmem.mpr hm)] at h1; rw [if_pos hm]; omega
      · rw [if_neg (fun h => hm (hmem.mp h))] at h1; rw [if_neg hm]; omega

/-- A true verdict of `is_safe_state` survives a release with a non-negative vector. -/
theorem is_safe_state_released (s : Ledger) (c : Fin NUMBER_OF_CUSTOMERS) (r : ResVec)
    (hr : ∀ j, 0 ≤ r j) (h : is_safe_state s = true) :
    is_safe_state (released s c r) = true := by
  rw [is_safe_state_iff_index_order] at h ⊢
  apply completes_released s c r hr _ s.available _ (List.nodup_finRange _) _ h
  intro j
  simp [released]

/-- With nothing allocated and every need within the pool, any order completes. -/
theorem completes_of_nothing_allocated (s : Ledger) (halloc : ∀ i j, s.allocation i j = 0) :
    ∀ (l : List (Fin NUMBER_OF_CUSTOMERS)) (w : ResVec), (∀ i j, s.need i j ≤ w j) →
      completes s w l = true := by
  intro l
  induction l with
  | nil => intro w _; rfl
  | cons i rest ih =>
    intro w hw
    rw [completes_cons, Bool.and_eq_true, decide_eq_true_eq]
    refine ⟨hw i, ih _ ?_⟩
    intro k j
    rw [halloc i j]
    simpa using hw k j

theorem is_safe_state_of_initialised (s : Ledger) (h : Initialised s) :
    is_safe_state s = true := by
  rw [is_safe_state_iff_index_order]
  apply completes_of_nothing_allocated s h.1
  intro i j
  rw [h.2.1 i j]
  exact (h.2.2 i j).2

theorem is_safe_state_apply_transaction (s : Ledger) (t : Transaction)
    (hpre : precondition s t) (h : is_safe_state s = true) :
    is_safe_state (apply_transaction s t) = true := by
  cases t with
  | request c r =>
    simp only [apply_transaction]
    rcases request_resources_cases s c r with hc | hc
    · rw [hc.1]; exact h
    · rw [hc.1]; exact hc.2.2
  | release c r =>
    simp only [apply_transaction, release_resources_eq]
    exact is_safe_state_released s c r (fun j => (hpre j).1) h

theorem is_safe_state_run (ts : List Transaction) :
    ∀ s : Ledger, Admissible s ts → is_safe_state s = true →
      is_safe_state (run s ts) = true := by
  induction ts with
  | nil => intro s _ h; exact h
  | cons t rest ih =>
    intro s hadm h
    have hstep : run s (t :: rest) = run (apply_transaction s t) rest := rfl
    rw [hstep]
    exact ih _ hadm.2 (is_safe_state_apply_transaction s t hadm.1 h)


/-! ## Initialisation and the amounts picked by a customer -/

theorem init_allocation_eq (s : Ledger) :
    init_allocation s = { s with allocation := fun _ _ => 0 } := by
  apply ledger_eq_of_entries
  · intro j; rfl
  · intro i j; rfl
  · intro i j; fin_cases i <;> fin_cases j <;> rfl
  · intro i j; rfl

theorem init_need_eq (s : Ledger) :
    init_need s = { s with need := fun i j => s.maximum i j - s.allocation i j } := by
  apply ledger_eq_of_entries
  · intro j; rfl
  · intro i j; rfl
  · intro i j; rfl
  · intro i j; fin_cases i <;> fin_cases j <;> rfl

theorem init_maximum_inner (rand : Nat → Int) (hrand : ∀ k, 0 ≤ rand k)
    (i : Fin NUMBER_OF_CUSTOMERS) :
    ∀ (l : List (Fin NUMBER_OF_RESOURCES)) (st : Ledger × Nat),
      (∀ j, 0 < st.1.available j) →
      ∃ st2, l.foldlM (init_maximum_step rand i) st = some st2 ∧
        st2.1.available = st.1.available ∧ st2.1.allocation = st.1.allocation ∧
        st2.1.need = st.1.need ∧
        ∀ a b, ((0 ≤ st.1.maximum a b ∧ st.1.maximum a b < st.1.available b) ∨
            (a = i ∧ b ∈ l)) →
          (0 ≤ st2.1.maximum a b ∧ st2.1.maximum a b < st.1.available b) := by
  intro l
  induction l with
  | nil =>
    intro st _
    refine ⟨st, rfl, rfl, rfl, rfl, ?_⟩
    intro a b h
    rcases h with h | h
    · exact h
    · exact absurd h.2 (List.not_mem_nil _)
  | cons x rest ih =>
    intro st hpos
    have hne : st.1.available x ≠ 0 := ne_of_gt (hpos x)
    have hstep : init_maximum_step rand i st x
        = some ({ available := st.1.available
                  maximum := Function.update (st.1.maximum) i
                    (Function.update (st.1.maximum i) x ((rand st.2).tmod (st.1.available x)))
                  allocation := st.1.allocation
                  need := st.1.need }, st.2 + 1) := by
      simp [init_maximum_step, c_mod, hne]
    obtain ⟨st2, hfold, hav, hal, hnd, hb⟩ :=
      ih ({ available := st.1.available
            maximum := Function.update (st.1.maximum) i
              (Function.update (st.1.maximum i) x ((rand st.2).tmod (st.1.available x)))
            allocation := st.1.allocation
            need := st.1.need }, st.2 + 1) hpos
    refine ⟨st2, ?_, hav, hal, hnd, ?_⟩
    · rw [List.foldlM_cons, hstep]
      exact hfold
    · intro a b h
      apply hb
      by_cases hab : a = i ∧ b = x
      · left
        obtain ⟨ha, hb2⟩ := hab
        subst ha; subst hb2
        simp only [Function.update_same]
        exact ⟨Int.tmod_nonneg _ (hrand _), Int.tmod_lt_of_pos _ (hpos _)⟩
      · rcases h with h | h
        · left
          by_cases ha : a = i
          · subst ha
            have hbx : b ≠ x := fun hbx => hab ⟨rfl, hbx⟩
            simp only [Function.update_same, Function.update_noteq hbx]
            exact h
          · simp only [Function.update_noteq ha]
            exact h
        · right
          refine ⟨h.1, ?_⟩
          rcases List.mem_cons.mp h.2 with hbx | hbr
          · exact absurd ⟨h.1, hbx⟩ hab
          · exact hbr

theorem init_maximum_outer (rand : Nat → Int) (hrand : ∀ k, 0 ≤ rand k) :
    ∀ (l : List (Fin NUMBER_OF_CUSTOMERS)) (st : Ledger × Nat),
      (∀ j, 0 < st.1.available j) →
      ∃ st2, l.foldlM (fun st i =>
            (List.finRange NUMBER_OF_RESOURCES).foldlM (init_maximum_step rand i) st) st
          = some st2 ∧
        st2.1.available = st.1.available ∧ st2.1.allocation = st.1.allocation ∧
        st2.1.need = st.1.need ∧
        ∀ a b, ((0 ≤ st.1.maximum a b ∧ st.1.maximum a b < st.1.available b) ∨ a ∈ l) →
          (0 ≤ st2.1.maximum a b ∧ st2.1.maximum a b < st.1.available b) := by
  intro l
  induction l with
  | nil =>
    intro st _
    refine ⟨st, rfl, rfl, rfl, rfl, ?_⟩
    intro a b h
    rcases h with h | h
    · exact h
    · exact absurd h (List.not_mem_nil _)
  | cons x rest ih =>
    intro st hpos
    obtain ⟨st1, hin, hav1, hal1, hnd1, hb1⟩ :=
      init_maximum_inner rand hrand x (List.finRange NUMBER_OF_RESOURCES) st hpos
    obtain ⟨st2, hfold, hav, hal, hnd, hb⟩ := ih st1 (by rw [hav1]; exact hpos)
    refine ⟨st2, ?_, hav.trans hav1, hal.trans hal1, hnd.trans hnd1, ?_⟩
    · rw [List.foldlM_cons, hin]
      exact hfold
    · intro a b h
      rw [hav1] at hb
      apply hb
      rcases h with h | h
      · exact Or.inl (hb1 a b (Or.inl h))
      · rcases List.mem_cons.mp h with hax | har
        · exact Or.inl (hb1 a b (Or.inr ⟨hax, List.mem_finRange b⟩))
        · exact Or.inr har

theorem choose_amount_loop (rand : Nat → Int) (hrand : ∀ k, 0 ≤ rand k) (row : ResVec)
    (hrow : ∀ j, 0 ≤ row j) :
    ∀ (l : List (Fin NUMBER_OF_RESOURCES)) (st : ResVec × Nat),
      ∃ st2, l.foldlM (choose_amount rand row) st = some st2 ∧
        ∀ j, ((0 ≤ st.1 j ∧ st.1 j ≤ row j) ∨ j ∈ l) → (0 ≤ st2.1 j ∧ st2.1 j ≤ row j) := by
  intro l
  induction l with
  | nil =>
    intro st
    refine ⟨st, rfl, ?_⟩
    intro j h
    rcases h with h | h
    · exact h
    · exact absurd h (List.not_mem_nil _)
  | cons x rest ih =>
    intro st
    have hstep : ∃ v k, choose_amount rand row st x = some (Function.update st.1 x v, k) ∧
        0 ≤ v ∧ v ≤ row x := by
      by_cases h01 : row x = 0 ∨ row x = 1
      · refine ⟨row x, st.2, ?_, hrow x, le_refl _⟩
        rcases h01 with h0 | h1
        · simp [choose_amount, h0]
        · simp [choose_amount, h1]
      · have h0 : row x ≠ 0 := fun h => h01 (Or.inl h)
        have h1 : row x ≠ 1 := fun h => h01 (Or.inr h)
        have hpos : 0 < row x := lt_of_le_of_ne (hrow x) (Ne.symm h0)
        refine ⟨(rand st.2).tmod (row x), st.2 + 1, ?_, Int.tmod_nonneg _ (hrand _),
          le_of_lt (Int.tmod_lt_of_pos _ hpos)⟩
        simp [choose_amount, c_mod, h0, h1]
    obtain ⟨v, k, hv, hv0, hv1⟩ := hstep
    obtain ⟨st2, hfold, hb⟩ := ih (Function.update st.1 x v, k)
    refine ⟨st2, ?_, ?_⟩
    · rw [List.foldlM_cons, hv]
      exact hfold
    · intro j h
      apply hb
      by_cases hjx : j = x
      · left
        subst hjx
        simp only [Function.update_same]
        exact ⟨hv0, hv1⟩
      · rcases h with h | h
        · left
          simp only [Function.update_noteq hjx]
          exact h
        · right
          exact (List.mem_cons.mp h).resolve_left hjx


theorem are_valid_args_loop_iff (argv : List String) :
    ∀ l : List Nat,
      are_valid_args_loop argv l = true ↔ ∀ i ∈ l, atoi (argv.getD i "") ≠ 0 := by
  intro l
  induction l with
  | nil => simp [are_valid_args_loop]
  | cons i rest ih =>
    unfold are_valid_args_loop
    by_cases h : atoi (argv.getD i "") = 0
    · simp only [h, beq_self_eq_true, if_true, List.mem_cons]
      constructor
      · intro hf; cases hf
      · intro hall; exact absurd h (hall i (Or.inl rfl))
    · have hb : (atoi (argv.getD i "") == 0) = false := by simpa using h
      simp only [hb, Bool.false_eq_true, if_false, ih, List.mem_cons]
      constructor
      · intro hall k hk
        rcases hk with rfl | hk
        · exact h
        · exact hall k hk
      · intro hall k hk; exact hall k (Or.inr hk)

theorem are_valid_args_eq_true_iff (argc : Int) (argv : List String) :
    are_valid_args argc argv = true ↔
      (argc - 1 = 3 ∧ ∀ i, 1 ≤ i → i ≤ 3 → atoi (argv.getD i "") ≠ 0) := by
  unfold are_valid_args
  by_cases hc : argc - 1 = 3
  · have hl : List.range' 1 NUMBER_OF_RESOURCES = [1, 2, 3] := by decide
    simp only [hc, Nat.cast_ofNat, bne_self_eq_false, Bool.false_eq_true, if_false,
      are_valid_args_loop_iff, hl, true_and]
    constructor
    · intro h i h1 h3
      apply h
      have : i = 1 ∨ i = 2 ∨ i = 3 := by omega
      simpa using this
    · intro h i hi
      have : i = 1 ∨ i = 2 ∨ i = 3 := by simpa using hi
      exact h i (by omega) (by omega)
  · simp [hc]

theorem foldl_or_eq {k : Nat} (p : Fin k → Prop) [DecidablePred p] :
    ∀ (l : List (Fin k)) (b : Bool),
      l.foldl (fun run i => if p i then true else run) b = (b || l.any (fun i => decide (p i))) := by
  intro l
  induction l with
  | nil => intro b; simp
  | cons i rest ih =>
    intro b
    rw [List.foldl_cons, ih]
    by_cases h : p i
    · simp [h]
    · simp [h]

theorem customer_run_eq_false_iff (s : Ledger) (c : Fin NUMBER_OF_CUSTOMERS) :
    customer_run s c = false ↔ (∀ j, s.need c j ≤ 0) ∧ (∀ j, s.allocation c j ≤ 0) := by
  unfold customer_run
  simp only [foldl_or_eq]
  simp [List.any_eq_true]

/-- Completion in index order, spelled out: the need of every consumer is within
`available` plus the allocations of the consumers before it. -/
theorem completes_index_order_iff (s : Ledger) :
    completes s s.available (List.finRange NUMBER_OF_CUSTOMERS) = true ↔
      ∀ i j, s.need i j ≤ s.available j +
        ∑ k : Fin NUMBER_OF_CUSTOMERS, if k < i then s.allocation k j else 0 := by
  have hl : List.finRange NUMBER_OF_CUSTOMERS = [0, 1, 2, 3, 4] := by decide
  rw [hl]
  simp only [completes, Bool.and_eq_true, decide_eq_true_eq, Bool.and_true]
  constructor
  · rintro ⟨h0, h1, h2, h3, h4⟩ i j
    have e0 := h0 j
    have e1 := h1 j
    have e2 := h2 j
    have e3 := h3 j
    have e4 := h4 j
    rw [Fin.sum_univ_five]
    have hi : i = 0 ∨ i = 1 ∨ i = 2 ∨ i = 3 ∨ i = 4 := by
      revert i; decide
    rcases hi with rfl | rfl | rfl | rfl | rfl <;> simp <;> omega
  · intro h
    refine ⟨fun j => ?_, fun j => ?_, fun j => ?_, fun j => ?_, fun j => ?_⟩
    · have e := h 0 j
      rw [Fin.sum_univ_five] at e
      simpa using e
    · have e := h 1 j
      rw [Fin.sum_univ_five] at e
      simp at e
      omega
    · have e := h 2 j
      rw [Fin.sum_univ_five] at e
      simp at e
      omega
    · have e := h 3 j
      rw [Fin.sum_univ_five] at e
      simp at e
      omega
    · have e := h 4 j
      rw [Fin.sum_univ_five] at e
      simp at e
      omega


/-! ## The claims, continued -/

/-- C11: safety monotonicity of the oracle.  If `is_safe_state` returns `true` on a ledger,
it returns `true` on the ledger left by `release_resources(c, release)` for every consumer
`c` and every component-wise non-negative release vector. -/
theorem release_keeps_safe_verdict (s : Ledger) (c : Fin NUMBER_OF_CUSTOMERS)
    (release : ResVec) (hsafe : is_safe_state s = true) (hrel : ∀ j, 0 ≤ release j) :
    is_safe_state (release_resources s c release).2 = true := by
  rw [release_resources_eq]
  exact is_safe_state_released s c release hrel hsafe

/-- C11 at the ledger `holding`: consumer 0 releases `[1,0,0]`. -/
theorem release_keeps_safe_verdict_holding :
    is_safe_state holding = true ∧
      is_safe_state (release_resources holding 0 ![1, 0, 0]).2 = true :=
  ⟨by decide, release_keeps_safe_verdict holding 0 ![1, 0, 0] (by decide) (by decide)⟩

/-- C12: starting from an initialised ledger (nothing allocated, `need = maximum`,
`0 ≤ maximum[i][j] ≤ available[j]`), after any finite sequence of `request_resources` and
`release_resources` calls with non-negative vectors meeting their preconditions, a
completion order for all consumers exists; indeed `is_safe_state` is true on the result. -/
theorem never_enters_unsafe_state (s : Ledger) (ts : List Transaction)
    (hinit : Initialised s) (hadm : Admissible s ts) :
    Safe (run s ts) ∧ is_safe_state (run s ts) = true :=
  have h : is_safe_state (run s ts) = true :=
    is_safe_state_run ts s hadm (is_safe_state_of_initialised s hinit)
  ⟨safe_of_is_safe_state _ h, h⟩

/-- C12 from `startup`: consumer 0 is granted `[2,0,0]`, releases `[1,0,0]`, then consumer 1
asks for `[2,0,0]`. -/
theorem never_enters_unsafe_state_startup :
    Initialised startup ∧
      Admissible startup [.request 0 ![2, 0, 0], .release 0 ![1, 0, 0], .request 1 ![2, 0, 0]] ∧
      Safe (run startup
        [.request 0 ![2, 0, 0], .release 0 ![1, 0, 0], .request 1 ![2, 0, 0]]) :=
  have hadm : Admissible startup
      [.request 0 ![2, 0, 0], .release 0 ![1, 0, 0], .request 1 ![2, 0, 0]] :=
    And.intro (by decide) (And.intro (by decide) (And.intro (by decide) trivial))
  ⟨by decide, hadm, (never_enters_unsafe_state startup _ (by decide) hadm).1⟩

/-- C13: for an available vector with all entries positive and non-negative outcomes of
`rand()`, `init_maximum` takes no modulus by zero (it returns a ledger), leaves `available`
as it was, and produces `0 ≤ maximum[i][j] ≤ available[j]`; once `init_allocation` and
`init_need` have run, no maximum exceeds the supply `total[j]` and the ledger is
initialised. -/
theorem init_maximum_within_available (rand : Nat → Int) (s : Ledger)
    (hrand : ∀ k, 0 ≤ rand k) (hpos : ∀ j, 0 < s.available j) :
    ∃ s2, init_maximum rand s = some s2 ∧ s2.available = s.available ∧
      (∀ i j, 0 ≤ s2.maximum i j ∧ s2.maximum i j ≤ s.available j) ∧
      (∀ i j, s2.maximum i j ≤ total (init_need (init_allocation s2)) j) ∧
      Initialised (init_need (init_allocation s2)) := by
  obtain ⟨st2, hfold, hav, _, _, hb⟩ :=
    init_maximum_outer rand hrand (List.finRange NUMBER_OF_CUSTOMERS) (s, 0) hpos
  have hmax : ∀ i j, 0 ≤ st2.1.maximum i j ∧ st2.1.maximum i j ≤ s.available j := by
    intro i j
    have h := hb i j (Or.inr (List.mem_finRange i))
    exact ⟨h.1, le_of_lt h.2⟩
  have hav2 : st2.1.available = s.available := hav
  refine ⟨st2.1, ?_, hav2, hmax, ?_, ?_⟩
  · unfold init_maximum
    rw [hfold]
    rfl
  · intro i j
    rw [init_allocation_eq, init_need_eq]
    simp only [total, Finset.sum_const_zero, add_zero]
    rw [hav2]
    exact (hmax i j).2
  · rw [init_allocation_eq, init_need_eq]
    refine ⟨fun i j => rfl, fun i j => by simp, fun i j => ?_⟩
    show 0 ≤ st2.1.maximum i j ∧ st2.1.maximum i j ≤ st2.1.available j
    rw [hav2]
    exact hmax i j

/-- C13 for the arguments `4 1 1` and a generator that always returns 7. -/
theorem init_maximum_within_available_example :
    ∃ s2, init_maximum (fun _ => 7) (init_available ["banker", "4", "1", "1"] zero_ledger)
        = some s2 ∧
      ∀ i j, 0 ≤ s2.maximum i j ∧
        s2.maximum i j ≤ (init_available ["banker", "4", "1", "1"] zero_ledger).available j :=
  have h := init_maximum_within_available (fun _ => 7)
    (init_available ["banker", "4", "1", "1"] zero_ledger) (fun _ => (by decide : (0 : Int) ≤ 7)) (by decide)
  h.elim fun s2 hs => ⟨s2, hs.1, hs.2.2.1⟩

/-- C14 (fails on the code): a negative amount passes `are_valid_args`.  With the arguments
`-1 3 2` it returns true, `main` does not return 1, and `available[0]` is set to `-1`. -/
theorem negative_amount_accepted :
    atoi "-1" = -1 ∧
      are_valid_args 4 ["banker", "-1", "3", "2"] = true ∧
      main_startup (fun _ => 7) 4 ["banker", "-1", "3", "2"] ≠ Except.error 1 ∧
      (init_available ["banker", "-1", "3", "2"] zero_ledger).available 0 = -1 := by
  refine ⟨by decide, by decide, ?_, by decide⟩
  have h : are_valid_args 4 ["banker", "-1", "3", "2"] = true := by decide
  simp [main_startup, h]

/-- C14 as the code has it: `are_valid_args` returns true exactly when there are
`NUMBER_OF_RESOURCES` arguments after the program name and `atoi` of each of them is not
zero; `main` returns 1 before the ledger is initialised exactly when it returns false. -/
theorem are_valid_args_iff (rand : Nat → Int) (argc : Int) (argv : List String) :
    (are_valid_args argc argv = true ↔
        (argc - 1 = (NUMBER_OF_RESOURCES : Int) ∧
          ∀ i, 1 ≤ i → i ≤ NUMBER_OF_RESOURCES → atoi (argv.getD i "") ≠ 0)) ∧
      (main_startup rand argc argv = Except.error 1 ↔ are_valid_args argc argv = false) := by
  refine ⟨are_valid_args_eq_true_iff argc argv, ?_⟩
  unfold main_startup
  cases h : are_valid_args argc argv <;> simp

/-- C15 (fails on the code): a release above the allocation is applied.  In `holding`
consumer 0 holds 2 units of resource 0; releasing `[3,0,0]` returns 0, raises
`available[0]` to 5 and leaves `allocation[0][0] = -1`. -/
theorem release_beyond_allocation_applied :
    (![3, 0, 0] : ResVec) 0 > holding.allocation 0 0 ∧
      (release_resources holding 0 ![3, 0, 0]).1 = 0 ∧
      (release_resources holding 0 ![3, 0, 0]).2.available 0 = 5 ∧
      (release_resources holding 0 ![3, 0, 0]).2.allocation 0 0 = -1 := by
  decide

/-- C15 as the code has it: `release_resources` checks nothing.  When
`release[j] > allocation[c][j]` it still returns 0, adds the release vector to `available`
and leaves the negative entry `allocation[c][j] - release[j]`. -/
theorem release_is_unchecked (s : Ledger) (c : Fin NUMBER_OF_CUSTOMERS) (release : ResVec)
    (j : Fin NUMBER_OF_RESOURCES) (hover : release j > s.allocation c j) :
    (release_resources s c release).1 = 0 ∧
      (∀ k, (release_resources s c release).2.available k = s.available k + release k) ∧
      (release_resources s c release).2.allocation c j = s.allocation c j - release j ∧
      (release_resources s c release).2.allocation c j < 0 := by
  rw [release_resources_eq]
  refine ⟨rfl, fun k => rfl, by simp [released], ?_⟩
  simp only [released, if_true]
  omega

/-- C15 as the code has it, at `holding` with the release `[3,0,0]` of consumer 0. -/
theorem release_is_unchecked_holding :
    (release_resources holding 0 ![3, 0, 0]).1 = 0 ∧
      (release_resources holding 0 ![3, 0, 0]).2.allocation 0 0 < 0 :=
  ⟨(release_is_unchecked holding 0 ![3, 0, 0] 0 (by decide)).1,
    (release_is_unchecked holding 0 ![3, 0, 0] 0 (by decide)).2.2.2⟩


/-- C17: `is_safe_state` makes one pass over the consumers in index order.  It returns
`true` exactly when for every consumer `i` and resource `j`
`need[i][j] ≤ available[j] + Σ_{k < i} allocation[k][j]`, that is when the order
0, 1, ..., n-1 is itself a completion order; and whenever it returns `true` a completion
order exists. -/
theorem is_safe_state_single_pass (s : Ledger) :
    (is_safe_state s = true ↔
        ∀ i j, s.need i j ≤ s.available j +
          ∑ k : Fin NUMBER_OF_CUSTOMERS, if k < i then s.allocation k j else 0) ∧
      (is_safe_state s = true ↔
        IsCompletionOrder s (List.finRange NUMBER_OF_CUSTOMERS)) ∧
      (is_safe_state s = true → Safe s) := by
  refine ⟨?_, ?_, safe_of_is_safe_state s⟩
  · rw [is_safe_state_iff_index_order, completes_index_order_iff]
  · rw [is_safe_state_iff_index_order]
    exact ⟨fun h => ⟨List.Perm.refl _, h⟩, fun h => h.2⟩

/-- C18: the amounts picked in `customer_process` meet the preconditions.  With non-negative
outcomes of `rand()`, a non-negative row `need[c]` gives a request with
`0 ≤ request[j] ≤ need[c][j]`, and a non-negative row `allocation[c]` gives a release with
`0 ≤ release[j] ≤ allocation[c][j]`; both loops run to their end, so no modulus is taken
by zero. -/
theorem customer_amounts_within_bounds (rand : Nat → Int) (s : Ledger)
    (c : Fin NUMBER_OF_CUSTOMERS) (calls : Nat) (hrand : ∀ k, 0 ≤ rand k)
    (hneed : ∀ j, 0 ≤ s.need c j) (halloc : ∀ j, 0 ≤ s.allocation c j) :
    (∃ request k, customer_request rand s c calls = some (request, k) ∧
        ∀ j, 0 ≤ request j ∧ request j ≤ s.need c j) ∧
      (∃ release k, customer_release rand s c calls = some (release, k) ∧
        ∀ j, 0 ≤ release j ∧ release j ≤ s.allocation c j) := by
  constructor
  · obtain ⟨st2, hfold, hb⟩ := choose_amount_loop rand hrand (s.need c) hneed
      (List.finRange NUMBER_OF_RESOURCES) (fun _ => 0, calls)
    exact ⟨st2.1, st2.2, hfold, fun j => hb j (Or.inr (List.mem_finRange j))⟩
  · obtain ⟨st2, hfold, hb⟩ := choose_amount_loop rand hrand (s.allocation c) halloc
      (List.finRange NUMBER_OF_RESOURCES) (fun _ => 0, calls)
    exact ⟨st2.1, st2.2, hfold, fun j => hb j (Or.inr (List.mem_finRange j))⟩

/-- C18 at the textbook state for consumer 0 (need `[7,4,3]`, allocation `[0,1,0]`) with a
generator that always returns 12: the request is `[5,0,0]`, three calls of `rand()` are
made for it, and the release is `[0,1,0]`. -/
theorem customer_amounts_within_bounds_textbook :
    (customer_request (fun _ => 12) textbook 0 0).map (fun p => (p.1 0, p.1 1, p.1 2, p.2))
        = some (5, 0, 0, 3) ∧
      (customer_release (fun _ => 12) textbook 0 3).map (fun p => (p.1 0, p.1 1, p.1 2, p.2))
        = some (0, 1, 0, 3) ∧
      ((∃ request k, customer_request (fun _ => 12) textbook 0 0 = some (request, k) ∧
          ∀ j, 0 ≤ request j ∧ request j ≤ textbook.need 0 j) ∧
        (∃ release k, customer_release (fun _ => 12) textbook 0 0 = some (release, k) ∧
          ∀ j, 0 ≤ release j ∧ release j ≤ textbook.allocation 0 j)) :=
  ⟨by decide, by decide,
    customer_amounts_within_bounds (fun _ => 12) textbook 0 0
      (fun _ => (by decide : (0 : Int) ≤ 12)) (by decide) (by decide)⟩

/-- C19: on a ledger with non-negative entries the check at the end of a cycle of
`customer_process` leaves `run` false (the consumer stops) exactly when `need[c][j] = 0`
for all `j` and `allocation[c][j] = 0` for all `j`; otherwise `run` is true and another
cycle follows. -/
theorem customer_stops_iff (s : Ledger) (c : Fin NUMBER_OF_CUSTOMERS) (hs : NonNegative s) :
    (customer_run s c = false ↔
        ((∀ j, s.need c j = 0) ∧ ∀ j, s.allocation c j = 0)) ∧
      (customer_run s c = true ↔
        ¬ ((∀ j, s.need c j = 0) ∧ ∀ j, s.allocation c j = 0)) := by
  have h1 : customer_run s c = false ↔
      ((∀ j, s.need c j = 0) ∧ ∀ j, s.allocation c j = 0) := by
    rw [customer_run_eq_false_iff]
    constructor
    · rintro ⟨hn, ha⟩
      exact ⟨fun j => le_antisymm (hn j) (hs.2.2 c j), fun j => le_antisymm (ha j) (hs.2.1 c j)⟩
    · rintro ⟨hn, ha⟩
      exact ⟨fun j => le_of_eq (hn j), fun j => le_of_eq (ha j)⟩
  refine ⟨h1, ?_⟩
  rw [← h1]
  cases customer_run s c <;> simp

/-- C19 at the ledger `holding`: consumer 0 (need `[1,0,0]`, holding `[2,0,0]`) goes on,
consumer 2 (nothing needed, nothing held) stops. -/
theorem customer_stops_iff_holding :
    NonNegative holding ∧ customer_run holding 0 = true ∧ customer_run holding 2 = false ∧
      (customer_run holding 2 = false ↔
        ((∀ j, holding.need 2 j = 0) ∧ ∀ j, holding.allocation 2 j = 0)) :=
  ⟨by decide, by decide, by decide, (customer_stops_iff holding 2 (by decide)).1⟩

/-- C20 (fails on the code): `need` can increase across a `request_resources` call.  From
`startup` the request `[-1,0,0]` of consumer 0 is granted and raises `need[0][0]` from 3
to 4. -/
theorem negative_request_raises_need :
    NeedBound startup ∧ (request_resources startup 0 ![-1, 0, 0]).1 = 0 ∧
      startup.need 0 0 = 3 ∧ (request_resources startup 0 ![-1, 0, 0]).2.need 0 0 = 4 := by
  decide

/-- C20 as the code has it: `allocation[i][j] + need[i][j] ≤ maximum[i][j]` holds after
`init_allocation` and `init_need`, and is preserved by every `request_resources` call
(granted or denied) and by every `release_resources` call with a non-negative release
vector; `need[i][j]` does not increase across a `release_resources` call, nor across a
`request_resources` call whose request vector is non-negative. -/
theorem need_bound_invariant (s0 s : Ledger) (c : Fin NUMBER_OF_CUSTOMERS)
    (request release : ResVec) (hbound : NeedBound s) (hrel : ∀ j, 0 ≤ release j) :
    NeedBound (init_need (init_allocation s0)) ∧
      NeedBound (request_resources s c request).2 ∧
      NeedBound (release_resources s c release).2 ∧
      (∀ i j, (release_resources s c release).2.need i j ≤ s.need i j) ∧
      ((∀ j, 0 ≤ request j) →
        ∀ i j, (request_resources s c request).2.need i j ≤ s.need i j) := by
  refine ⟨?_, ?_, ?_, ?_, ?_⟩
  · rw [init_allocation_eq, init_need_eq]
    intro i j
    simp
  · rcases request_resources_cases s c request with h | h
    · rw [h.1]; exact hbound
    · rw [h.1]
      intro i j
      have hij := hbound i j
      by_cases hi : i = c
      · simp only [tentative, hi, if_true]
        rw [hi] at hij
        omega
      · simp only [tentative, hi, if_false]
        exact hij
  · rw [release_resources_eq]
    intro i j
    have hij := hbound i j
    have hr := hrel j
    by_cases hi : i = c
    · simp only [released, hi, if_true]
      rw [hi] at hij
      omega
    · simp only [released, hi, if_false]
      exact hij
  · rw [release_resources_eq]
    intro i j
    exact le_refl _
  · intro hreq i j
    rcases request_resources_cases s c request with h | h
    · rw [h.1]
    · rw [h.1]
      have hr := hreq j
      by_cases hi : i = c
      · simp only [tentative, hi, if_true]
        omega
      · simp only [tentative, hi, if_false]
        exact le_refl _

/-- C20 as the code has it, at `holding`: consumer 0 requests `[1,0,0]` or releases
`[1,0,0]`. -/
theorem need_bound_invariant_holding :
    NeedBound holding ∧
      NeedBound (request_resources holding 0 ![1, 0, 0]).2 ∧
      NeedBound (release_resources holding 0 ![1, 0, 0]).2 ∧
      ∀ i j, (request_resources holding 0 ![1, 0, 0]).2.need i j ≤ holding.need i j :=
  have h := need_bound_invariant zero_ledger holding 0 ![1, 0, 0] ![1, 0, 0]
    (by decide) (by decide)
  ⟨by decide, h.2.1, h.2.2.1, h.2.2.2.2 (by decide)⟩

end Banker
